import Mathlib

/-!
Shallow embedding of the passerd daemon (an IRC gateway to Twitter) and
verification of behavioural properties of its core components: the inbound
text decoder (`passerd/util.py`), the error throttler and feed watermark
logic (`passerd/feeds.py`), the rate-limited scheduler
(`passerd/scheduler.py`), the identity cache, recent-post history, posting
paths and config variables (`passerd/ircd.py`), and NAMES chunking
(`passerd/irc.py`).  Definitions are translated from the Python source,
keeping the original names where Lean permits.
-/

namespace Passerd

/-! ### passerd/util.py : inbound text decoding -/

/-- A byte of a Python 2 `str` (byte string). -/
abbrev PByte := Fin 256

/-- The two codec names iterated over by `try_unicode`
(`ENCODINGS = ['utf-8', 'iso-8859-1']` in `passerd/util.py`). -/
inductive PyEncoding where
  | utf8
  | iso8859_1
  deriving DecidableEq, Repr

/-- `passerd/util.py` line 2. -/
def ENCODINGS : List PyEncoding := [.utf8, .iso8859_1]

/-- UTF-8 decoding as performed by the Python 2 `'utf-8'` codec: the decoded
code points, or `none` when the byte string is not valid UTF-8.  The Python 2
codec accepts surrogate code points (reflected in the `0xED` range below);
overlong encodings, stray continuation bytes, truncated sequences and values
above `U+10FFFF` are rejected. -/
def utf8Decode : List PByte → Option (List Nat)
  | [] => some []
  | b :: rest =>
    if b.val < 0x80 then
      (utf8Decode rest).map (fun u => b.val :: u)
    else if b.val < 0xC2 then
      none
    else if b.val < 0xE0 then
      match rest with
      | b1 :: rest2 =>
        if 0x80 ≤ b1.val ∧ b1.val < 0xC0 then
          (utf8Decode rest2).map
            (fun u => ((b.val - 0xC0) * 0x40 + (b1.val - 0x80)) :: u)
        else none
      | [] => none
    else if b.val < 0xF0 then
      match rest with
      | b1 :: b2 :: rest3 =>
        let lo1 := if b.val = 0xE0 then 0xA0 else 0x80
        if lo1 ≤ b1.val ∧ b1.val < 0xC0 ∧ 0x80 ≤ b2.val ∧ b2.val < 0xC0 then
          (utf8Decode rest3).map
            (fun u => ((b.val - 0xE0) * 0x1000 + (b1.val - 0x80) * 0x40
              + (b2.val - 0x80)) :: u)
        else none
      | _ => none
    else if b.val < 0xF5 then
      match rest with
      | b1 :: b2 :: b3 :: rest4 =>
        let lo1 := if b.val = 0xF0 then 0x90 else 0x80
        let hi1 := if b.val = 0xF4 then 0x90 else 0xC0
        if lo1 ≤ b1.val ∧ b1.val < hi1 ∧ 0x80 ≤ b2.val ∧ b2.val < 0xC0
            ∧ 0x80 ≤ b3.val ∧ b3.val < 0xC0 then
          (utf8Decode rest4).map
            (fun u => ((b.val - 0xF0) * 0x40000 + (b1.val - 0x80) * 0x1000
              + (b2.val - 0x80) * 0x40 + (b3.val - 0x80)) :: u)
        else none
      | _ => none
    else none

/-- ISO-8859-1 decoding: every byte `b` maps to code point `b`; it never
fails on any byte string. -/
def latin1Decode (s : List PByte) : List Nat := s.map (fun b => b.val)

/-- `unicode(s, e)` for the two codec names appearing in `passerd/util.py`. -/
def pyDecode : PyEncoding → List PByte → Option (List Nat)
  | .utf8, s => utf8Decode s
  | .iso8859_1, s => some (latin1Decode s)

/-- The candidate loop of `try_unicode` (`passerd/util.py` lines 21-28):
`for e in [enc]+ENCODINGS: if not e: continue; try: return unicode(s, e);
except: pass`, falling through to
`raise Exception("couldn't decode message as unicode")` (line 31). -/
def tryEncodings : List (Option PyEncoding) → List PByte → Except String (List Nat)
  | [], _ => .error "couldn't decode message as unicode"
  | none :: es, s => tryEncodings es s
  | some e :: es, s =>
    match pyDecode e s with
    | some u => .ok u
    | none => tryEncodings es s

/-- `try_unicode(s, enc=None)` from `passerd/util.py` lines 20-31. -/
def try_unicode (s : List PByte) (enc : Option PyEncoding) : Except String (List Nat) :=
  tryEncodings (enc :: ENCODINGS.map some) s

/-! ### passerd/feeds.py : ErrorThrottler -/

/-- Messages handed to the wrapped error function by `ErrorThrottler`: a
plain forwarded error, a `ThrottlerStopMessage`, or a `BackWorkingMessage`. -/
inductive ThMsg where
  | forwarded (msg : String)
  | stopNotice (msg : String)
  | backWorking (msg : String)
  deriving DecidableEq, Repr

/-- `ErrorThrottler.MAX_SAME_ERROR` (feeds.py line 61). -/
def MAX_SAME_ERROR : Nat := 1

/-- `ErrorThrottler.MAX_DIFF_ERROR` (feeds.py line 64). -/
def MAX_DIFF_ERROR : Nat := 4

/-- `ErrorThrottler.SAME_ERROR_MSG` (feeds.py line 67). -/
def SAME_ERROR_MSG : String :=
  "I got the same error again. I will shut up and just tell you when things are back to normal"

/-- `ErrorThrottler.LOTS_ERRORS_MSG` (feeds.py line 68). -/
def LOTS_ERRORS_MSG : String :=
  "I am getting too many errors. I will shut up and just tell you when things are back to normal"

/-- `ErrorThrottler.BACK_WORKING` (feeds.py line 69). -/
def BACK_WORKING : String := "Good! Things seem to be working again"

/-- The mutable attributes of an `ErrorThrottler` instance
(feeds.py lines 71-76). -/
structure ThState where
  last_err : Option String
  same_err_count : Nat
  any_err_count : Nat
  stopped : Bool
  deriving DecidableEq, Repr

/-- `ErrorThrottler.__init__` (feeds.py lines 71-76). -/
def thInit : ThState := ⟨none, 0, 0, false⟩

/-- `ErrorThrottler.error(e)` (feeds.py lines 82-100), together with
`_stop` (lines 78-80).  Returns the new state and the messages passed to the
wrapped error function, in order. -/
def thError (s : ThState) (msg : String) : ThState × List ThMsg :=
  let any := s.any_err_count + 1
  let same := if some msg = s.last_err then s.same_err_count + 1 else 1
  let s1 : ThState := ⟨some msg, same, any, s.stopped⟩
  if s.stopped then (s1, [])
  else if same > MAX_SAME_ERROR then
    ({ s1 with stopped := true }, [.stopNotice SAME_ERROR_MSG])
  else if any > MAX_DIFF_ERROR then
    ({ s1 with stopped := true }, [.stopNotice LOTS_ERRORS_MSG])
  else (s1, [.forwarded msg])

/-- `ErrorThrottler.ok()` (feeds.py lines 102-107). -/
def thOk (s : ThState) : ThState × List ThMsg :=
  let out := if s.stopped then [ThMsg.backWorking BACK_WORKING] else []
  (⟨s.last_err, 0, 0, false⟩, out)

/-- An event of the throttler's interface: `error(msg)` or `ok()`. -/
inductive ThEvent where
  | err (msg : String)
  | ok
  deriving DecidableEq, Repr

/-- An `ErrorThrottler` in state `s` driven through a stream of events
(oldest first); returns the final state and everything passed to the wrapped
error function, in order. -/
def thRunFrom (s : ThState) : List ThEvent → ThState × List ThMsg
  | [] => (s, [])
  | .err m :: es =>
    let r := thError s m
    let k := thRunFrom r.1 es
    (k.1, r.2 ++ k.2)
  | .ok :: es =>
    let r := thOk s
    let k := thRunFrom r.1 es
    (k.1, r.2 ++ k.2)

/-- A fresh `ErrorThrottler` driven through a stream of events. -/
def thRun (es : List ThEvent) : ThState × List ThMsg := thRunFrom thInit es

/-- Spec-side notion, following the spec's words: the error messages received
since the most recent `ok()` event.  The input is the event history most
recent first (i.e. reversed); the output lists the messages of the current
error segment, most recent first. -/
def specSegment : List ThEvent → List String
  | [] => []
  | .ok :: _ => []
  | .err m :: rest => m :: specSegment rest

/-- Spec-side "same-error streak": the length of the trailing run of
identical error messages.  Input: messages most recent first. -/
def specStreak : List String → Nat
  | [] => 0
  | [_] => 1
  | m :: n :: rest => if m = n then specStreak (n :: rest) + 1 else 1

/-- Spec-side "muted" flag: at some point since the last `ok()` a cap was
breached (the same-error streak exceeded `MAX_SAME_ERROR`, or the total
number of errors exceeded `MAX_DIFF_ERROR`).  Input: the messages since the
last `ok()`, most recent first. -/
def specBreached : List String → Bool
  | [] => false
  | m :: rest =>
    specBreached rest || decide (specStreak (m :: rest) > MAX_SAME_ERROR)
      || decide ((m :: rest).length > MAX_DIFF_ERROR)

/-- Spec-side most recent error message in the event history (most recent
first); `ok()` events do not clear it. -/
def specLastErr : List ThEvent → Option String
  | [] => none
  | .ok :: rest => specLastErr rest
  | .err m :: _ => some m

/-- The output the specification prescribes for one event, given the prior
event history `es` (oldest first): errors are forwarded unchanged while the
same-error streak stays at most `MAX_SAME_ERROR` and the errors since the
last `ok()` stay at most `MAX_DIFF_ERROR`; the first breach emits exactly one
muted notice (same-error wins over lots-of-errors); while muted, errors are
swallowed; `ok()` emits exactly one recovered notice if and only if muted. -/
def specStepOutputs (es : List ThEvent) (e : ThEvent) : List ThMsg :=
  let seg := specSegment es.reverse
  match e with
  | .ok => if specBreached seg then [.backWorking BACK_WORKING] else []
  | .err m =>
    if specBreached seg then []
    else if specStreak (m :: seg) > MAX_SAME_ERROR then [.stopNotice SAME_ERROR_MSG]
    else if (m :: seg).length > MAX_DIFF_ERROR then [.stopNotice LOTS_ERRORS_MSG]
    else [.forwarded m]

/-! ### passerd/feeds.py : TwitterFeed watermark and refresh -/

/-- A timeline entry as used by `TwitterFeed._refresh`: only the numeric id
(`int(e.id)`) matters for watermark handling. -/
structure Entry where
  id : Int
  deriving DecidableEq, Repr

/-- Watermark state of a `TwitterFeed`: the in-memory `_last_id` and the
value persisted through `proto.set_user_var` (the persistence adapter). -/
structure FeedState where
  lastId : Option Int
  stored : Option Int
  deriving DecidableEq, Repr

/-- Externally visible actions taken by a feed: dispatching an entry to the
entry callbacks, persisting the watermark, notifying the error throttler,
calling the raw errbacks, and asking the scheduler to reschedule. -/
inductive FeedAction where
  | deliver (e : Entry)
  | setLastId (i : Int)
  | throttlerOk
  | throttlerError (msg : String)
  | rawErrback (msg : String)
  | resched
  deriving DecidableEq, Repr

/-- `TwitterFeed.update_last_id` (feeds.py lines 127-129): record the new
watermark in memory and write it through the persistence adapter. -/
def update_last_id (_s : FeedState) (i : Int) : FeedState := ⟨some i, some i⟩

/-- One iteration of the dispatch loop in `_refresh.finished` (feeds.py lines
191-194): deliver the entry to the entry callbacks first, then update the
watermark when the entry id exceeds it (or it is unset). -/
def feedDispatch (s : FeedState) (e : Entry) : FeedState × List FeedAction :=
  match s.lastId with
  | none => (update_last_id s e.id, [.deliver e, .setLastId e.id])
  | some w =>
    if e.id > w then (update_last_id s e.id, [.deliver e, .setLastId e.id])
    else (s, [.deliver e])

/-- The dispatch loop of `_refresh.finished` over the buffered entries,
processed sequentially.  `entries` is in dispatch order (the code prepends
arriving entries to the buffer, so dispatch order is the reverse of arrival
order). -/
def feedFinished (s : FeedState) : List Entry → FeedState × List FeedAction
  | [] => (s, [])
  | e :: es =>
    let d := feedDispatch s e
    let f := feedFinished d.1 es
    (f.1, d.2 ++ f.2)

/-- `TwitterFeed.refresh` (feeds.py lines 203-226) applied to the outcome of
the underlying timeline request (entries in arrival order).  On success,
`_refresh.finished` runs: `ok()` to the error throttler, then the dispatch
loop; afterwards `resched`.  On failure the `error` callback forwards the
error to the raw errbacks and then to the error throttler, and `resched`
runs afterwards (`addBoth`). -/
def feedRefresh (s : FeedState) (r : Except String (List Entry)) :
    FeedState × List FeedAction :=
  match r with
  | .error m => (s, [.rawErrback m, .throttlerError m, .resched])
  | .ok arrival =>
    let f := feedFinished s arrival.reverse
    (f.1, FeedAction.throttlerOk :: f.2 ++ [FeedAction.resched])

/-- A sequence of refreshes of one feed, run in order, accumulating the
action trace. -/
def feedRunRefreshes (s : FeedState) : List (Except String (List Entry)) →
    FeedState × List FeedAction
  | [] => (s, [])
  | r :: rs =>
    let f := feedRefresh s r
    let k := feedRunRefreshes f.1 rs
    (k.1, f.2 ++ k.2)

/-- Order on watermarks: an unset watermark precedes everything. -/
def wmLe : Option Int → Option Int → Prop
  | none, _ => True
  | some _, none => False
  | some a, some b => a ≤ b

instance : ∀ a b : Option Int, Decidable (wmLe a b)
  | none, _ => isTrue trivial
  | some _, none => isFalse (fun h => h)
  | some a, some b => inferInstanceAs (Decidable (a ≤ b))

/-- The running maximum used to describe the persisted watermark. -/
def wmMax : Option Int → Int → Option Int
  | none, i => some i
  | some w, i => some (max w i)

/-- The ids of the entries dispatched to subscribers in an action trace. -/
def deliveredIds (tr : List FeedAction) : List Int :=
  tr.filterMap (fun a =>
    match a with
    | .deliver e => some e.id
    | _ => none)

/-- The maximum of a list of entry ids (`none` when empty). -/
def maxDelivered (ids : List Int) : Option Int := ids.foldl wmMax none

/-- A trace is watermark-safe when every `setLastId i` is preceded by the
dispatch of an entry with id `i`. -/
def SafeTrace (tr : List FeedAction) : Prop :=
  ∀ pre i post, tr = pre ++ FeedAction.setLastId i :: post →
    ∃ e, FeedAction.deliver e ∈ pre ∧ e.id = i

/-! ### passerd/scheduler.py : ApiScheduler -/

/-- `MAX_REQS_PER_HOUR` (scheduler.py line 40). -/
def MAX_REQS_PER_HOUR : Nat := 80

/-- `REFRESH_DELAY = int(3600/MAX_REQS_PER_HOUR)` (scheduler.py line 41). -/
def REFRESH_DELAY : Nat := 3600 / MAX_REQS_PER_HOUR

/-- State of an `ApiScheduler` together with the `pending` flags of its
`RefreshUpdater` handles (identified by handle ids): the registered handles,
`pending_queue`, the set of handles whose `pending` flag is `True`, and
`shots_available`. -/
structure Sched where
  updaters : List Nat
  pending_queue : List Nat
  pendingFlags : List Nat
  shots_available : Nat
  deriving DecidableEq, Repr

/-- Result of draining shots: remaining shots, remaining queue, remaining
pending flags, and the handles called, in order. -/
structure ShotsResult where
  shots : Nat
  queue : List Nat
  flags : List Nat
  calls : List Nat
  deriving DecidableEq, Repr

/-- `ApiScheduler._run_shots` (scheduler.py lines 99-103): while shots remain
and the queue is nonempty, consume one shot, pop the queue head and call it;
`RefreshUpdater.call` (lines 49-52) clears the handle's `pending` flag. -/
def runShots : Nat → List Nat → List Nat → ShotsResult
  | 0, queue, flags => ⟨0, queue, flags, []⟩
  | n + 1, [], flags => ⟨n + 1, [], flags, []⟩
  | n + 1, u :: rest, flags =>
    let r := runShots n rest (flags.erase u)
    ⟨r.shots, r.queue, r.flags, u :: r.calls⟩

/-- `RefreshUpdater.resched` plus `ApiScheduler._resched_updater`
(scheduler.py lines 54-59 and 92-94): a no-op when the handle is already
pending; otherwise mark it pending, append it to the queue, and immediately
run any available shots.  Returns the new state and the calls made. -/
def schedResched (s : Sched) (u : Nat) : Sched × List Nat :=
  if u ∈ s.pendingFlags then (s, [])
  else
    let r := runShots s.shots_available (s.pending_queue ++ [u]) (u :: s.pendingFlags)
    (⟨s.updaters, r.queue, r.flags, r.shots⟩, r.calls)

/-- `ApiScheduler._run_next` (scheduler.py lines 105-121): one tick.  Makes
`len(self.updaters)` shots available, drains the pending queue, and schedules
the next tick after `REFRESH_DELAY * updater_count` seconds.  Returns the new
state, the calls made, and that delay. -/
def schedTick (s : Sched) : Sched × List Nat × Nat :=
  let n := s.updaters.length
  let r := runShots n s.pending_queue s.pendingFlags
  (⟨s.updaters, r.queue, r.flags, r.shots⟩, r.calls, REFRESH_DELAY * n)

/-- `ApiScheduler.new_updater` (scheduler.py lines 82-87); the fresh handle
id `u` must be unused. -/
def schedNewUpdater (s : Sched) (u : Nat) (active : Bool) : Sched × List Nat :=
  let s1 := { s with updaters := s.updaters ++ [u] }
  if active then schedResched s1 u else (s1, [])

/-- Consistency of a scheduler state: the queue has no duplicates, queued
handles are registered, and a handle's `pending` flag is set exactly when it
is in the queue. -/
def SchedInv (s : Sched) : Prop :=
  s.pending_queue.Nodup ∧ (∀ u ∈ s.pending_queue, u ∈ s.updaters) ∧
    (∀ u, u ∈ s.pendingFlags ↔ u ∈ s.pending_queue)

/-! ### passerd/ircd.py : TwitterUserCache -/

/-- `TwitterUserInfo` (ircd.py lines 146-159). -/
structure TwitterUserInfo where
  screen_name : String
  name : String
  deriving DecidableEq, Repr

/-- The process-global `twitter_users` table: rows keyed by `twitter_id`. -/
abbrev UserTable := List (Int × TwitterUserInfo)

/-- Row lookup (`TwitterUserCache.lookup_id`, ircd.py lines 216-223). -/
def tableLookup : UserTable → Int → Option TwitterUserInfo
  | [], _ => none
  | (i, info) :: rest, tid => if i = tid then some info else tableLookup rest tid

/-- Writing a row: `new_info.to_data(d)` on an existing row, or
`session.add` of a fresh `TwitterUserData` row. -/
def tableSet : UserTable → Int → TwitterUserInfo → UserTable
  | [], tid, info => [(tid, info)]
  | (i, old) :: rest, tid, info =>
    if i = tid then (i, info) :: rest else (i, old) :: tableSet rest tid info

/-- A change event as delivered to `TwitterUserCache` callbacks, carrying the
table contents visible to the subscribers at delivery time. -/
structure CacheEvent where
  twitter_id : Int
  old_info : Option TwitterUserInfo
  new_info : TwitterUserInfo
  observed : UserTable
  deriving DecidableEq, Repr

/-- `TwitterUserCache._change_data` (ircd.py lines 180-184): the callbacks
are called before `new_info.to_data(d)` mutates the row, so the table the
subscribers observe is the pre-mutation table. -/
def changeData (t : UserTable) (tid : Int) (old : Option TwitterUserInfo)
    (info : TwitterUserInfo) : UserTable × CacheEvent :=
  (tableSet t tid info, ⟨tid, old, info, t⟩)

/-- `TwitterUserCache._update_user_info` and `_new_user`
(ircd.py lines 186-202), via `update_user_info` (lines 204-209). -/
def update_user_info (t : UserTable) (tid : Int) (sn nm : String) :
    UserTable × CacheEvent :=
  let i : TwitterUserInfo := ⟨sn, nm⟩
  match tableLookup t tid with
  | none => changeData t tid none i
  | some old => changeData t tid (some old) i

/-! ### passerd/ircd.py : recent-post history of a TwitterChannel -/

/-- `REPLY_HISTORY_SIZE` (ircd.py line 92). -/
def REPLY_HISTORY_SIZE : Nat := 100

/-- An entry as stored in the recent-post history: `int(e.id)` and
`int(e.user.id)`. -/
structure HistEntry where
  id : Int
  userId : Int
  deriving DecidableEq, Repr

/-- The two history structures of a `TwitterChannel` (ircd.py lines 454-458):
the `recent_posts` ring and the `recent_by_user` per-author index. -/
structure ChanHistory where
  recent_posts : List HistEntry
  recent_by_user : List (Int × List HistEntry)
  deriving DecidableEq, Repr

/-- `self.recent_by_user.get(uid, [])`. -/
def byUserGet : List (Int × List HistEntry) → Int → List HistEntry
  | [], _ => []
  | (u, es) :: rest, uid => if u = uid then es else byUserGet rest uid

/-- Replacing the list stored under `uid` (in-place `pop(0)` on the stored
list object). -/
def byUserSet : List (Int × List HistEntry) → Int → List HistEntry →
    List (Int × List HistEntry)
  | [], uid, es => [(uid, es)]
  | (u, old) :: rest, uid, es =>
    if u = uid then (u, es) :: rest else (u, old) :: byUserSet rest uid es

/-- `self.recent_by_user.setdefault(uid, []).append(e)`. -/
def byUserAppend (m : List (Int × List HistEntry)) (uid : Int) (e : HistEntry) :
    List (Int × List HistEntry) :=
  byUserSet m uid (byUserGet m uid ++ [e])

/-- In Python 2, comparing a list with an int falls back to comparing the
type names, and the string `'list'` sorts after `'int'`; so the source
condition `self.recent_posts > REPLY_HISTORY_SIZE` (ircd.py line 521) is
`True` for every list, whatever its length. -/
def pyList_gt_int (_l : List HistEntry) (_n : Nat) : Bool := true

/-- `TwitterChannel._drop_one_old_entry` (ircd.py lines 502-517): pop the
oldest ring entry; if the per-author index list for its author starts with
the same entry id, pop that too. -/
def dropOneOldEntry (h : ChanHistory) : ChanHistory :=
  match h.recent_posts with
  | [] => h
  | drop :: rest =>
    let uid := drop.userId
    match byUserGet h.recent_by_user uid with
    | u0 :: urest =>
      if u0.id = drop.id then ⟨rest, byUserSet h.recent_by_user uid urest⟩
      else ⟨rest, h.recent_by_user⟩
    | [] => ⟨rest, h.recent_by_user⟩

/-- `TwitterChannel._add_to_history` (ircd.py lines 519-524): append to the
ring; then the (always true) size check triggers `_drop_one_old_entry`; then
append to the per-author index. -/
def addToHistory (h : ChanHistory) (e : HistEntry) : ChanHistory :=
  let h1 : ChanHistory := ⟨h.recent_posts ++ [e], h.recent_by_user⟩
  let h2 := if pyList_gt_int h1.recent_posts REPLY_HISTORY_SIZE then
    dropOneOldEntry h1 else h1
  ⟨h2.recent_posts, byUserAppend h2.recent_by_user e.userId e⟩

/-! ### passerd/ircd.py : posting to a channel -/

/-- `LENGTH_LIMIT` (ircd.py line 82). -/
def LENGTH_LIMIT : Nat := 140

/-- The character class `[a-zA-Z0-9_]` of `REPLY_RE` (ircd.py line 449). -/
def isWordChar (c : Char) : Bool := c.isAlphanum || c = '_'

/-- `REPLY_RE.match(msg)` for `REPLY_RE = re.compile(r'(@?)([a-zA-Z0-9_]+)([:, ])')`
(ircd.py line 449): an optional `@`, a nonempty run of word characters, and
one of `:`, `,` or space.  Returns the three groups (the word run cannot be
shortened usefully by backtracking, because a word character never matches
the terminator class). -/
def matchReply (msg : List Char) : Option (Bool × List Char × Char) :=
  let p : Bool × List Char :=
    match msg with
    | '@' :: r => (true, r)
    | r => (false, r)
  let nick := p.2.takeWhile isWordChar
  let rest2 := p.2.dropWhile isWordChar
  if nick = [] then none
  else
    match rest2 with
    | c :: _ => if c = ':' ∨ c = ',' ∨ c = ' ' then some (p.1, nick, c) else none
    | [] => none

/-- `TwitterChannel._add_in_reply_to` (ircd.py lines 700-725): detect a
leading `@name`, `name:` or `name,` (but not bare `name` followed by a
space), look up that author's latest post in the recent-post history
(`lastPost` abstracts `self.last_post_id`), and on success attach
`in_reply_to_status_id` and prepend `@` when missing. -/
def addInReplyTo (lastPost : String → Option Nat) (msg : String) :
    String × Option Nat :=
  match matchReply msg.data with
  | none => (msg, none)
  | some (at_, nick, endc) =>
    if at_ = false ∧ endc = ' ' then (msg, none)
    else
      match lastPost (String.mk nick) with
      | some pid =>
        if pid ≠ 0 then
          ((if at_ then msg else "@" ++ msg), some pid)
        else (msg, none)
      | none => (msg, none)

/-- Externally visible actions of the posting path. -/
inductive PostAction where
  | apiUpdate (text : String) (inReplyTo : Option Nat)
  | errReply (numeric : String) (text : String)
  | botNotice (text : String)
  | botMsg (text : String)
  deriving DecidableEq, Repr

/-- The numeric `irc.ERR_CANNOTSENDTOCHAN`. -/
def ERR_CANNOTSENDTOCHAN : String := "404"

/-- `PasserdProtocol.send_twitter_post` (ircd.py lines 1966-1972): the local
length pre-check before any API call.  `msg` is the decoded text; the error
value carries the `MessageTooLong` length. -/
def proto_send_twitter_post (msg : String) (arg : Option Nat) :
    Except Nat PostAction :=
  if msg.length > LENGTH_LIMIT then .error msg.length
  else .ok (.apiUpdate msg arg)

/-- `TwitterChannel.do_send_twitter_post` (ircd.py lines 683-698) composed
with `TwitterChannel.send_twitter_post` (lines 727-731): rewrite the message
through `_add_in_reply_to`, run the length-checked protocol post, and map a
`MessageTooLong` failure to the `ERR_CANNOTSENDTOCHAN` numeric
(`'message too long (%d characters)'`). -/
def do_send_twitter_post (lastPost : String → Option Nat) (msg : String) :
    List PostAction :=
  let r := addInReplyTo lastPost msg
  match proto_send_twitter_post r.1 r.2 with
  | .ok api => [api, .botNotice "Twitter update posted!!"]
  | .error n =>
    [.errReply ERR_CANNOTSENDTOCHAN
      ("message too long (" ++ toString n ++ " characters)")]

/-! ### passerd/irc.py : NAMES chunking -/

/-- The loop of `IrcChannel._sendNames` (irc.py lines 225-237): accumulate
nicks, flushing one RPL_NAMREPLY batch whenever the accumulator holds more
than 30 names, with a final flush at the end.  Returns the batches. -/
def chunkNames : List String → List String → List (List String)
  | acc, [] => [acc]
  | acc, m :: rest =>
    let acc1 := acc ++ [m]
    if acc1.length > 30 then acc1 :: chunkNames [] rest
    else chunkNames acc1 rest

/-- `IrcChannel._sendNames` applied to a member list: the name batches of the
RPL_NAMREPLY (353) messages, in order. -/
def sendNames (members : List String) : List (List String) := chunkNames [] members

/-! ### passerd/ircd.py and data.py : per-user config variables -/

/-- `DataStore.set_var` (data.py lines 189-196): update the unique
`(user, name)` row, or insert a fresh one. -/
def set_var : List (String × String) → String → String → List (String × String)
  | [], var, value => [(var, value)]
  | (n, v) :: rest, var, value =>
    if n = var then (n, value) :: rest else (n, v) :: set_var rest var value

/-- `DataStore.get_var` (data.py lines 183-187). -/
def get_var : List (String × String) → String → Option String
  | [], _ => none
  | (n, v) :: rest, var => if n = var then some v else get_var rest var

/-- `PasserdProtocol.set_user_cfg_var` (ircd.py lines 1512-1526) for a
boolean value: `True` is stored as the string `'1'`, `False` as `'0'`, under
the key `config:<var>`. -/
def set_user_cfg_var (store : List (String × String)) (var : String)
    (value : Bool) : List (String × String) :=
  set_var store ("config:" ++ var) (if value then "1" else "0")

/-- The truthy set of `user_cfg_var_b` (ircd.py line 1534). -/
def TRUE_VALUES : List String := ["true", "t", "1", "y", "yes", "on"]

/-- `PasserdProtocol.user_cfg_var_b` (ircd.py lines 1532-1538):
`if v and v in true_values: return True else: return False`. -/
def user_cfg_var_b (store : List (String × String)) (var : String) : Bool :=
  match get_var store ("config:" ++ var) with
  | none => false
  | some v => if v ≠ "" ∧ v ∈ TRUE_VALUES then true else false

end Passerd

namespace Passerd

/-! ### Theorems.  Claim C9: total inbound decoding -/

/-- Claim C9: `try_unicode` is total on byte strings: it returns the UTF-8
decoding when the bytes are valid UTF-8 and otherwise the ISO-8859-1
decoding, which accepts every byte string; hence the final "couldn't decode"
exception branch is unreachable.  This holds for the default call
(`enc=None`), for the `IRC_ENCODING = 'utf-8'` call, and totality holds for
every `enc` argument. -/
theorem try_unicode_spec (s : List PByte) :
    try_unicode s none = .ok ((utf8Decode s).getD (latin1Decode s)) ∧
    try_unicode s (some PyEncoding.utf8) = .ok ((utf8Decode s).getD (latin1Decode s)) ∧
    ∀ enc, ∃ u, try_unicode s enc = Except.ok u := by
  cases h : utf8Decode s with
  | none =>
    refine ⟨?_, ?_, ?_⟩
    · simp [try_unicode, tryEncodings, ENCODINGS, pyDecode, h]
    · simp [try_unicode, tryEncodings, ENCODINGS, pyDecode, h]
    · intro enc
      refine ⟨latin1Decode s, ?_⟩
      cases enc with
      | none => simp [try_unicode, tryEncodings, ENCODINGS, pyDecode, h]
      | some e => cases e <;> simp [try_unicode, tryEncodings, ENCODINGS, pyDecode, h]
  | some u =>
    refine ⟨?_, ?_, ?_⟩
    · simp [try_unicode, tryEncodings, ENCODINGS, pyDecode, h]
    · simp [try_unicode, tryEncodings, ENCODINGS, pyDecode, h]
    · intro enc
      cases enc with
      | none => exact ⟨u, by simp [try_unicode, tryEncodings, ENCODINGS, pyDecode, h]⟩
      | some e =>
        cases e with
        | utf8 => exact ⟨u, by simp [try_unicode, tryEncodings, ENCODINGS, pyDecode, h]⟩
        | iso8859_1 =>
          exact ⟨latin1Decode s, by simp [try_unicode, tryEncodings, ENCODINGS, pyDecode, h]⟩

/-! ### Claim C6: identity-cache change events -/

theorem tableLookup_tableSet_self (t : UserTable) (tid : Int) (info : TwitterUserInfo) :
    tableLookup (tableSet t tid info) tid = some info := by
  induction t with
  | nil => simp [tableSet, tableLookup]
  | cons row rest ih =>
    obtain ⟨i, old⟩ := row
    by_cases hi : i = tid
    · simp [tableSet, tableLookup, hi]
    · simp [tableSet, tableLookup, hi, ih]

/-- Claim C6: every identity-cache update fires the change event
`(remote_id, old_info_or_nil, new_info)` strictly before the cached row is
mutated: the table observed by the subscribers at event time is the
pre-update table, whose row for `remote_id` still equals the event's old
info, while the table after the update carries the new info. -/
theorem identity_cache_event_before_mutation (t : UserTable) (tid : Int)
    (sn nm : String) :
    (update_user_info t tid sn nm).2.observed = t ∧
    (update_user_info t tid sn nm).2.old_info = tableLookup t tid ∧
    tableLookup (update_user_info t tid sn nm).2.observed tid
      = (update_user_info t tid sn nm).2.old_info ∧
    tableLookup (update_user_info t tid sn nm).1 tid
      = some (update_user_info t tid sn nm).2.new_info ∧
    (update_user_info t tid sn nm).2.new_info = ⟨sn, nm⟩ := by
  cases h : tableLookup t tid <;>
    simp [update_user_info, changeData, h, tableLookup_tableSet_self]

/-! ### Claim C10: boolean config variables -/

theorem get_var_set_var_self (st : List (String × String)) (var value : String) :
    get_var (set_var st var value) var = some value := by
  induction st with
  | nil => simp [set_var, get_var]
  | cons row rest ih =>
    obtain ⟨n, v⟩ := row
    by_cases hn : n = var
    · simp [set_var, get_var, hn]
    · simp [set_var, get_var, hn, ih]

/-- Claim C10: reading a config option with `user_cfg_var_b` immediately
after `set_user_cfg_var(name, b)` returns exactly `b` (`True` is stored as
the string `'1'`, which is in the truthy set; `False` as `'0'`, which is
not); an option whose variable was never set reads as `False`. -/
theorem user_cfg_var_b_roundtrip (store : List (String × String)) (var : String)
    (b : Bool) :
    user_cfg_var_b (set_user_cfg_var store var b) var = b ∧
    (get_var store ("config:" ++ var) = none → user_cfg_var_b store var = false) := by
  constructor
  · cases b <;>
      simp [user_cfg_var_b, set_user_cfg_var, get_var_set_var_self, TRUE_VALUES]
  · intro h
    simp [user_cfg_var_b, h]

/-- Witness for `user_cfg_var_b_roundtrip` at a concrete store and option. -/
theorem user_cfg_var_b_roundtrip_witness :
    get_var [("config:multiline", "1")] ("config:" ++ "rt_inline") = none ∧
    user_cfg_var_b [("config:multiline", "1")] "rt_inline" = false :=
  ⟨by decide,
    (user_cfg_var_b_roundtrip [("config:multiline", "1")] "rt_inline" true).2 (by decide)⟩

/-! ### Claim C3: recent-post ring vs per-author index -/

/-- Claim C3 (code-bug evidence): `_add_to_history` compares the list object
`recent_posts` itself against `REPLY_HISTORY_SIZE`, which in Python 2 is
always true, so adding a single entry to an empty history immediately evicts
it from the ring while still recording it in the per-author index: the ring
stays empty (far below the claimed 100-entry bound at which eviction should
start) and the index holds an entry that is not in the ring, so the two
structures are not kept consistent. -/
theorem addToHistory_code_bug :
    (addToHistory ⟨[], []⟩ ⟨1, 7⟩).recent_posts = [] ∧
    byUserGet (addToHistory ⟨[], []⟩ ⟨1, 7⟩).recent_by_user 7 = [⟨1, 7⟩] ∧
    (0 : Nat) < REPLY_HISTORY_SIZE := by decide

/-! ### Claim C8: NAMES chunking -/

theorem chunkNames_le (members : List String) :
    ∀ acc, acc.length ≤ 30 → ∀ b ∈ chunkNames acc members, b.length ≤ 31 := by
  induction members with
  | nil =>
    intro acc hacc b hb
    simp only [chunkNames, List.mem_singleton] at hb
    subst hb
    omega
  | cons m rest ih =>
    intro acc hacc b hb
    simp only [chunkNames] at hb
    by_cases h : (acc ++ [m]).length > 30
    · rw [if_pos h] at hb
      rcases List.mem_cons.mp hb with rfl | hb2
      · simp only [List.length_append, List.length_singleton]
        omega
      · exact ih [] (by simp) b hb2
    · rw [if_neg h] at hb
      exact ih (acc ++ [m]) (by omega) b hb

/-- Claim C8 (amended): each RPL_NAMREPLY batch carries at most 31 nicks —
the accumulator in `_sendNames` is flushed only once it exceeds 30 names, so
a full batch holds 31, not 30. -/
theorem sendNames_batch_le (members : List String) (batch : List String)
    (h : batch ∈ sendNames members) : batch.length ≤ 31 :=
  chunkNames_le members [] (by simp) batch h

/-- Witness for `sendNames_batch_le` on a one-member channel. -/
theorem sendNames_batch_le_witness :
    ["alice"] ∈ sendNames ["alice"] ∧ (["alice"] : List String).length ≤ 31 :=
  ⟨by decide, sendNames_batch_le ["alice"] ["alice"] (by decide)⟩

/-- Claim C8 counterexample: with 31 members the first RPL_NAMREPLY batch
carries 31 nicks, so it is not the case that every batch holds at most 30
nicks. -/
theorem sendNames_claim_counterexample :
    ¬ ∀ b ∈ sendNames (List.replicate 31 "bob"), b.length ≤ 30 := by decide

/-! ### Claim C7: post length gate -/

/-- Claim C7 (amended): writing `msg1` for the post text after the
`_add_in_reply_to` rewrite (which may prepend `@`): when `msg1` exceeds
`LENGTH_LIMIT = 140` characters no API update call is made and the failure
is surfaced as numeric `ERR_CANNOTSENDTOCHAN`; when `msg1` is at most 140
characters the post is passed on to the API update call.  (The length check
applies to the rewritten text, so a 140-character post rewritten as a reply
can be rejected; see the counterexample.) -/
theorem channel_post_length_gate (lastPost : String → Option Nat) (msg : String) :
    ((addInReplyTo lastPost msg).1.length > LENGTH_LIMIT →
      do_send_twitter_post lastPost msg
        = [PostAction.errReply ERR_CANNOTSENDTOCHAN
            ("message too long (" ++ toString (addInReplyTo lastPost msg).1.length
              ++ " characters)")]) ∧
    ((addInReplyTo lastPost msg).1.length ≤ LENGTH_LIMIT →
      do_send_twitter_post lastPost msg
        = [PostAction.apiUpdate (addInReplyTo lastPost msg).1 (addInReplyTo lastPost msg).2,
           PostAction.botNotice "Twitter update posted!!"]) := by
  constructor
  · intro h
    simp [do_send_twitter_post, proto_send_twitter_post, h]
  · intro h
    have h2 : ¬ (addInReplyTo lastPost msg).1.length > LENGTH_LIMIT := not_lt.mpr h
    simp [do_send_twitter_post, proto_send_twitter_post, h2]

/-- Witness for `channel_post_length_gate` on a short ordinary post. -/
theorem channel_post_length_gate_witness :
    ("hello" : String).length ≤ LENGTH_LIMIT ∧
    do_send_twitter_post (fun _ => none) "hello"
      = [PostAction.apiUpdate "hello" none,
         PostAction.botNotice "Twitter update posted!!"] := by
  have e : addInReplyTo (fun _ => none) "hello" = ("hello", none) := by decide
  have h := (channel_post_length_gate (fun _ => none) "hello").2
  rw [e] at h
  exact ⟨by decide, h (by decide)⟩

set_option maxRecDepth 16384

/-- Claim C7 counterexample: the 140-character post `"alice,hhh…h"`,
addressed to a user with a recent post in the history, is rewritten to 141
characters by the `@`-prepend of `_add_in_reply_to` and rejected with
`ERR_CANNOTSENDTOCHAN`; no API update call is made although the post's
decoded text has at most 140 characters. -/
theorem channel_post_claim_counterexample :
    ("alice," ++ String.mk (List.replicate 134 'h')).length = 140 ∧
    do_send_twitter_post (fun n => if n = "alice" then some 777 else none)
        ("alice," ++ String.mk (List.replicate 134 'h'))
      = [PostAction.errReply ERR_CANNOTSENDTOCHAN
          "message too long (141 characters)"] ∧
    ∀ t a, PostAction.apiUpdate t a ∉
      do_send_twitter_post (fun n => if n = "alice" then some 777 else none)
        ("alice," ++ String.mk (List.replicate 134 'h')) := by
  have e : do_send_twitter_post (fun n => if n = "alice" then some 777 else none)
      ("alice," ++ String.mk (List.replicate 134 'h'))
      = [PostAction.errReply ERR_CANNOTSENDTOCHAN
          "message too long (141 characters)"] := by decide
  refine ⟨by decide, e, ?_⟩
  intro t a hmem
  rw [e] at hmem
  simp at hmem

/-! ### Claim C4: refresh error ordering -/

/-- Claim C4 (amended): when a feed refresh fails, the error is forwarded to
the raw error callbacks first, then through the error throttler, and only
then is the scheduler asked to reschedule; on success the error throttler is
notified `ok()` first and the feed is rescheduled at the end. -/
theorem feed_refresh_order (s : FeedState) (m : String) (arrival : List Entry) :
    (feedRefresh s (.error m)).2
      = [FeedAction.rawErrback m, FeedAction.throttlerError m, FeedAction.resched] ∧
    (feedRefresh s (.ok arrival)).2.head? = some FeedAction.throttlerOk ∧
    (feedRefresh s (.ok arrival)).2.getLast? = some FeedAction.resched := by
  refine ⟨rfl, rfl, ?_⟩
  show (FeedAction.throttlerOk :: (feedFinished s arrival.reverse).2
      ++ [FeedAction.resched]).getLast? = some FeedAction.resched
  have hsplit : FeedAction.throttlerOk :: (feedFinished s arrival.reverse).2
      ++ [FeedAction.resched]
      = (FeedAction.throttlerOk :: (feedFinished s arrival.reverse).2)
        ++ [FeedAction.resched] := rfl
  rw [hsplit, List.getLast?_concat]

/-- Claim C4 counterexample: for a failed refresh the claim routes the error
through the throttler before the raw callbacks; in the trace of
`feedRefresh` the raw errback strictly precedes the throttler. -/
theorem feed_refresh_claim_counterexample :
    (feedRefresh ⟨none, none⟩ (.error "boom")).2
      = [FeedAction.rawErrback "boom", FeedAction.throttlerError "boom",
         FeedAction.resched] ∧
    ¬ (feedRefresh ⟨none, none⟩ (.error "boom")).2.indexOf
          (FeedAction.throttlerError "boom")
        < (feedRefresh ⟨none, none⟩ (.error "boom")).2.indexOf
          (FeedAction.rawErrback "boom") := by
  exact ⟨rfl, by decide⟩

/-! ### Claim C5: scheduler ticks -/

theorem runShots_drain (queue : List Nat) :
    ∀ shots flags, queue.length ≤ shots →
      runShots shots queue flags
        = ⟨shots - queue.length, [],
           queue.foldl (fun f u => f.erase u) flags, queue⟩ := by
  induction queue with
  | nil =>
    intro shots flags _
    cases shots <;> simp [runShots]
  | cons u rest ih =>
    intro shots flags h
    cases shots with
    | zero => simp at h
    | succ n =>
      have h2 : rest.length ≤ n := by
        simp only [List.length_cons] at h
        omega
      simp [runShots, ih n (flags.erase u) h2, Nat.succ_sub_succ]

/-- Claim C5 (amended): on every scheduler tick exactly one shot per
registered updater is made available (`shots_available` is set to the
updater count, so after the tick it equals the count minus the drained
queue) and every pending updater is called exactly once, draining the whole
queue in that tick; the next tick is scheduled `REFRESH_DELAY × N` seconds
later with `REFRESH_DELAY = int(3600/80) = 45`; and a `resched()` on a
handle that is already pending is a no-op, so repeated `resched()` calls
coalesce while the handle stays pending.  (When unused shots remain from the
previous tick, a `resched()` on a non-pending handle instead invokes it
immediately — see the counterexample.) -/
theorem scheduler_tick_spec (s : Sched) (h : SchedInv s) :
    (schedTick s).2.1 = s.pending_queue ∧
    (schedTick s).1.pending_queue = [] ∧
    (schedTick s).1.shots_available
      = s.updaters.length - s.pending_queue.length ∧
    (schedTick s).2.2 = REFRESH_DELAY * s.updaters.length ∧
    REFRESH_DELAY = 45 ∧
    ∀ u, u ∈ s.pendingFlags → schedResched s u = (s, []) := by
  obtain ⟨hnd, hsub, hflag⟩ := h
  have hlen : s.pending_queue.length ≤ s.updaters.length :=
    (hnd.subperm (fun u hu => hsub u hu)).length_le
  have hrun := runShots_drain s.pending_queue s.updaters.length s.pendingFlags hlen
  refine ⟨?_, ?_, ?_, rfl, by decide, ?_⟩
  · simp [schedTick, hrun]
  · simp [schedTick, hrun]
  · simp [schedTick, hrun]
  · intro u hu
    simp [schedResched, hu]

/-- Witness for `scheduler_tick_spec` at a concrete consistent state. -/
theorem scheduler_tick_spec_witness :
    SchedInv ⟨[1, 2], [1], [1], 0⟩ ∧
    (schedTick ⟨[1, 2], [1], [1], 0⟩).2.1 = [1] := by
  have hinv : SchedInv ⟨[1, 2], [1], [1], 0⟩ :=
    ⟨by decide, by decide, fun u => Iff.rfl⟩
  exact ⟨hinv, (scheduler_tick_spec ⟨[1, 2], [1], [1], 0⟩ hinv).1⟩

/-- Claim C5 counterexample: handle 1 is registered and ticked; handle 2 is
then registered (becoming pending) and a second tick makes two shots
available but drains only handle 2, leaving one unused shot.  Two
`resched()` calls on handle 2 between that tick and the next now produce two
invocations of the handle — the first fires immediately on the leftover
shot, the second is called by the next tick — so multiple `resched()` calls
between two ticks do not coalesce into a single pending invocation. -/
theorem scheduler_claim_counterexample :
    (let a := schedNewUpdater ⟨[], [], [], 0⟩ 1 true
     let b := schedTick a.1
     let c := schedNewUpdater b.1 2 true
     let d := schedTick c.1
     let r1 := schedResched d.1 2
     let r2 := schedResched r1.1 2
     let t := schedTick r2.1
     r1.2 ++ r2.2 ++ t.2.1) = [2, 2] ∧
    (let a := schedNewUpdater ⟨[], [], [], 0⟩ 1 true
     let b := schedTick a.1
     let c := schedNewUpdater b.1 2 true
     let d := schedTick c.1
     let r1 := schedResched d.1 2
     let r2 := schedResched r1.1 2
     let t := schedTick r2.1
     r1.2 ++ r2.2 ++ t.2.1).length ≠ 1 := by
  exact ⟨by decide, by decide⟩

/-! ### Claim C1: feed watermark invariants -/

theorem wmLe_refl (a : Option Int) : wmLe a a := by
  cases a with
  | none => trivial
  | some x => exact le_refl x

theorem wmLe_trans {a b c : Option Int} (h1 : wmLe a b) (h2 : wmLe b c) :
    wmLe a c := by
  cases a with
  | none => trivial
  | some x =>
    cases b with
    | none => exact h1.elim
    | some y =>
      cases c with
      | none => exact h2.elim
      | some z => exact le_trans h1 h2

theorem safeTrace_of_no_set {tr : List FeedAction}
    (h : ∀ i, FeedAction.setLastId i ∉ tr) : SafeTrace tr := by
  intro pre i post heq
  exfalso
  apply h i
  rw [heq]
  exact List.mem_append_right pre (List.mem_cons_self _ _)

theorem safeTrace_append {a b : List FeedAction} (ha : SafeTrace a)
    (hb : SafeTrace b) : SafeTrace (a ++ b) := by
  intro pre i post heq
  rcases List.append_eq_append_iff.mp heq with ⟨a2, ha1, ha2⟩ | ⟨c2, hc1, hc2⟩
  · obtain ⟨e, hmem, hid⟩ := hb a2 i post ha2
    exact ⟨e, ha1 ▸ List.mem_append_right a hmem, hid⟩
  · cases c2 with
    | nil =>
      have hb2 : b = [] ++ FeedAction.setLastId i :: post := by
        simpa using hc2.symm
      obtain ⟨e, hmem, _⟩ := hb [] i post hb2
      exact absurd hmem (List.not_mem_nil _)
    | cons x c3 =>
      rw [List.cons_append] at hc2
      injection hc2 with hx hpost
      refine ha pre i c3 ?_
      rw [hc1, ← hx]

theorem safeTrace_pair (e : Entry) :
    SafeTrace [FeedAction.deliver e, FeedAction.setLastId e.id] := by
  intro pre i post heq
  cases pre with
  | nil => simp at heq
  | cons x pre2 =>
    cases pre2 with
    | nil =>
      simp only [List.cons_append, List.nil_append, List.cons.injEq] at heq
      obtain ⟨hx, hset, -⟩ := heq
      refine ⟨e, ?_, ?_⟩
      · rw [← hx]
        exact List.mem_singleton.mpr rfl
      · injection hset with hid
    | cons y pre3 => simp at heq

theorem deliveredIds_append (a b : List FeedAction) :
    deliveredIds (a ++ b) = deliveredIds a ++ deliveredIds b := by
  simp [deliveredIds, List.filterMap_append]

theorem feedDispatch_ids (s : FeedState) (e : Entry) :
    deliveredIds (feedDispatch s e).2 = [e.id] := by
  cases h : s.lastId with
  | none => simp [feedDispatch, h, deliveredIds]
  | some w =>
    by_cases hgt : e.id > w <;> simp [feedDispatch, h, hgt, deliveredIds]

theorem feedDispatch_safe (s : FeedState) (e : Entry) :
    SafeTrace (feedDispatch s e).2 := by
  have h1 : SafeTrace [FeedAction.deliver e] := by
    refine safeTrace_of_no_set ?_
    intro i
    simp
  cases h : s.lastId with
  | none => simpa [feedDispatch, h] using safeTrace_pair e
  | some w =>
    by_cases hgt : e.id > w
    · simpa [feedDispatch, h, hgt] using safeTrace_pair e
    · simpa [feedDispatch, h, hgt] using h1

theorem feedDispatch_mono (s : FeedState) (e : Entry) :
    wmLe s.lastId (feedDispatch s e).1.lastId := by
  cases h : s.lastId with
  | none => simp [feedDispatch, h, update_last_id, wmLe]
  | some w =>
    by_cases hgt : e.id > w
    · simp only [feedDispatch, h, if_pos hgt, update_last_id]
      exact le_of_lt hgt
    · simp only [feedDispatch, h, if_neg hgt]
      exact le_refl w


theorem feedDispatch_inv (s : FeedState) (e : Entry) (hinv : s.lastId = s.stored) :
    (feedDispatch s e).1.lastId = (feedDispatch s e).1.stored ∧
    (feedDispatch s e).1.stored = wmMax s.stored e.id := by
  cases h : s.lastId with
  | none =>
    have hs : s.stored = none := by rw [← hinv, h]
    simp [feedDispatch, h, update_last_id, hs, wmMax]
  | some w =>
    have hs : s.stored = some w := by rw [← hinv, h]
    by_cases hgt : e.id > w
    · simp [feedDispatch, h, hgt, update_last_id, hs, wmMax,
        max_eq_right (le_of_lt hgt)]
    · simp [feedDispatch, h, hgt, hs, wmMax, max_eq_left (not_lt.mp hgt), hinv]

theorem feedFinished_spec (es : List Entry) :
    ∀ s : FeedState, s.lastId = s.stored →
      (feedFinished s es).1.lastId = (feedFinished s es).1.stored ∧
      (feedFinished s es).1.stored
        = es.foldl (fun w e => wmMax w e.id) s.stored ∧
      wmLe s.lastId (feedFinished s es).1.lastId ∧
      deliveredIds (feedFinished s es).2 = es.map (fun e => e.id) ∧
      SafeTrace (feedFinished s es).2 := by
  induction es with
  | nil =>
    intro s hinv
    refine ⟨hinv, rfl, wmLe_refl _, rfl, ?_⟩
    refine safeTrace_of_no_set ?_
    intro i
    simp [feedFinished]
  | cons e es ih =>
    intro s hinv
    obtain ⟨hd1, hd2⟩ := feedDispatch_inv s e hinv
    obtain ⟨h1, h2, h3, h4, h5⟩ := ih (feedDispatch s e).1 hd1
    refine ⟨h1, ?_, ?_, ?_, ?_⟩
    · show (feedFinished (feedDispatch s e).1 es).1.stored = _
      rw [h2, List.foldl_cons, hd2]
    · exact wmLe_trans (feedDispatch_mono s e) h3
    · show deliveredIds ((feedDispatch s e).2
          ++ (feedFinished (feedDispatch s e).1 es).2) = _
      rw [deliveredIds_append, feedDispatch_ids, h4, List.map_cons]
      rfl
    · exact safeTrace_append (feedDispatch_safe s e) h5

theorem feedFinished_mono (es : List Entry) :
    ∀ s : FeedState, wmLe s.lastId (feedFinished s es).1.lastId := by
  induction es with
  | nil => intro s; exact wmLe_refl _
  | cons e es ih =>
    intro s
    exact wmLe_trans (feedDispatch_mono s e) (ih (feedDispatch s e).1)

theorem feedRefresh_mono (s : FeedState) (r : Except String (List Entry)) :
    wmLe s.lastId (feedRefresh s r).1.lastId := by
  cases r with
  | error m => exact wmLe_refl _
  | ok arrival => exact feedFinished_mono arrival.reverse s

theorem feedRunRefreshes_mono (rs : List (Except String (List Entry))) :
    ∀ s : FeedState, wmLe s.lastId (feedRunRefreshes s rs).1.lastId := by
  induction rs with
  | nil => intro s; exact wmLe_refl _
  | cons r rs ih =>
    intro s
    exact wmLe_trans (feedRefresh_mono s r) (ih (feedRefresh s r).1)

theorem feedRefresh_spec (r : Except String (List Entry)) (s : FeedState)
    (hinv : s.lastId = s.stored) :
    (feedRefresh s r).1.lastId = (feedRefresh s r).1.stored ∧
    (feedRefresh s r).1.stored
      = (deliveredIds (feedRefresh s r).2).foldl wmMax s.stored ∧
    SafeTrace (feedRefresh s r).2 := by
  cases r with
  | error m =>
    refine ⟨hinv, rfl, ?_⟩
    refine safeTrace_of_no_set ?_
    intro i
    simp [feedRefresh]
  | ok arrival =>
    obtain ⟨h1, h2, -, h4, h5⟩ := feedFinished_spec arrival.reverse s hinv
    refine ⟨h1, ?_, ?_⟩
    · show (feedFinished s arrival.reverse).1.stored
        = (deliveredIds (FeedAction.throttlerOk ::
            (feedFinished s arrival.reverse).2 ++ [FeedAction.resched])).foldl
          wmMax s.stored
      have hids : deliveredIds (FeedAction.throttlerOk ::
          (feedFinished s arrival.reverse).2 ++ [FeedAction.resched])
          = deliveredIds (feedFinished s arrival.reverse).2 := by
        simp [deliveredIds, List.filterMap_append]
      rw [hids, h4, h2, List.foldl_map]
    · show SafeTrace (FeedAction.throttlerOk ::
        (feedFinished s arrival.reverse).2 ++ [FeedAction.resched])
      have hsingle : SafeTrace [FeedAction.resched] := by
        refine safeTrace_of_no_set ?_
        intro i
        simp
      have hok : SafeTrace [FeedAction.throttlerOk] := by
        refine safeTrace_of_no_set ?_
        intro i
        simp
      have hsplit : FeedAction.throttlerOk ::
          (feedFinished s arrival.reverse).2 ++ [FeedAction.resched]
          = [FeedAction.throttlerOk] ++ ((feedFinished s arrival.reverse).2
            ++ [FeedAction.resched]) := by simp
      rw [hsplit]
      exact safeTrace_append hok (safeTrace_append h5 hsingle)

theorem feedRunRefreshes_spec (rs : List (Except String (List Entry))) :
    ∀ s : FeedState, s.lastId = s.stored →
      (feedRunRefreshes s rs).1.lastId = (feedRunRefreshes s rs).1.stored ∧
      (feedRunRefreshes s rs).1.stored
        = (deliveredIds (feedRunRefreshes s rs).2).foldl wmMax s.stored ∧
      SafeTrace (feedRunRefreshes s rs).2 := by
  induction rs with
  | nil =>
    intro s hinv
    refine ⟨hinv, rfl, ?_⟩
    refine safeTrace_of_no_set ?_
    intro i
    simp [feedRunRefreshes]
  | cons r rs ih =>
    intro s hinv
    obtain ⟨f1, f2, f3⟩ := feedRefresh_spec r s hinv
    obtain ⟨k1, k2, k3⟩ := ih (feedRefresh s r).1 f1
    refine ⟨k1, ?_, ?_⟩
    · show (feedRunRefreshes (feedRefresh s r).1 rs).1.stored
        = (deliveredIds ((feedRefresh s r).2
            ++ (feedRunRefreshes (feedRefresh s r).1 rs).2)).foldl wmMax s.stored
      rw [k2, f2, deliveredIds_append, List.foldl_append]
    · exact safeTrace_append f3 k3

theorem feedRunRefreshes_append (rs1 rs2 : List (Except String (List Entry))) :
    ∀ s : FeedState,
      feedRunRefreshes s (rs1 ++ rs2)
        = ((feedRunRefreshes (feedRunRefreshes s rs1).1 rs2).1,
           (feedRunRefreshes s rs1).2
             ++ (feedRunRefreshes (feedRunRefreshes s rs1).1 rs2).2) := by
  induction rs1 with
  | nil =>
    intro s
    simp [feedRunRefreshes]
  | cons r rs1 ih =>
    intro s
    simp only [feedRunRefreshes, List.append_eq]
    rw [ih (feedRefresh s r).1]
    simp [List.append_assoc]

/-- Claim C1: for every feed, across any sequence of refresh operations
started from a fresh feed state, the in-memory watermark is monotonically
non-decreasing (per refresh and across any extension of the sequence); the
watermark is written only after the corresponding entry has been dispatched
to subscribers (every `setLastId i` in the action trace is preceded by the
delivery of an entry with id `i`); and the watermark persisted through the
persistence adapter equals the maximum entry id delivered so far. -/
theorem feed_watermark_spec (rs : List (Except String (List Entry))) :
    (∀ (s : FeedState) (r : Except String (List Entry)),
      wmLe s.lastId (feedRefresh s r).1.lastId) ∧
    (∀ rs2, wmLe (feedRunRefreshes ⟨none, none⟩ rs).1.lastId
        (feedRunRefreshes ⟨none, none⟩ (rs ++ rs2)).1.lastId) ∧
    SafeTrace (feedRunRefreshes ⟨none, none⟩ rs).2 ∧
    (feedRunRefreshes ⟨none, none⟩ rs).1.stored
      = maxDelivered (deliveredIds (feedRunRefreshes ⟨none, none⟩ rs).2) := by
  obtain ⟨h1, h2, h3⟩ := feedRunRefreshes_spec rs ⟨none, none⟩ rfl
  refine ⟨feedRefresh_mono, ?_, h3, h2⟩
  intro rs2
  rw [feedRunRefreshes_append rs rs2 ⟨none, none⟩]
  exact feedRunRefreshes_mono rs2 (feedRunRefreshes ⟨none, none⟩ rs).1

/-! ### Claim C2: error throttler -/

theorem thRunFrom_append (l1 : List ThEvent) :
    ∀ (s : ThState) (l2 : List ThEvent),
      thRunFrom s (l1 ++ l2)
        = ((thRunFrom (thRunFrom s l1).1 l2).1,
           (thRunFrom s l1).2 ++ (thRunFrom (thRunFrom s l1).1 l2).2) := by
  induction l1 with
  | nil =>
    intro s l2
    simp [thRunFrom]
  | cons e l1 ih =>
    intro s l2
    cases e with
    | err m =>
      simp only [thRunFrom, List.cons_append, List.append_eq]
      rw [ih (thError s m).1 l2]
      simp [List.append_assoc]
    | ok =>
      simp only [thRunFrom, List.cons_append, List.append_eq]
      rw [ih (thOk s).1 l2]
      simp [List.append_assoc]

theorem thRun_concat_err (es : List ThEvent) (m : String) :
    thRun (es ++ [ThEvent.err m])
      = ((thError (thRun es).1 m).1,
         (thRun es).2 ++ (thError (thRun es).1 m).2) := by
  show thRunFrom thInit (es ++ [ThEvent.err m]) = _
  rw [thRunFrom_append es thInit [ThEvent.err m]]
  simp [thRunFrom, thRun]

theorem thRun_concat_ok (es : List ThEvent) :
    thRun (es ++ [ThEvent.ok])
      = ((thOk (thRun es).1).1, (thRun es).2 ++ (thOk (thRun es).1).2) := by
  show thRunFrom thInit (es ++ [ThEvent.ok]) = _
  rw [thRunFrom_append es thInit [ThEvent.ok]]
  simp [thRunFrom, thRun]

theorem specLastErr_of_segment_cons (rs : List ThEvent) (m : String)
    (seg : List String) (h : specSegment rs = m :: seg) :
    specLastErr rs = some m := by
  cases rs with
  | nil => simp [specSegment] at h
  | cons ev rest =>
    cases ev with
    | ok => simp [specSegment] at h
    | err m2 =>
      simp only [specSegment, List.cons.injEq] at h
      simp [specLastErr, h.1]

theorem thError_char (s : ThState) (rs : List ThEvent)
    (hL : s.last_err = specLastErr rs)
    (hS : s.same_err_count = specStreak (specSegment rs))
    (hA : s.any_err_count = (specSegment rs).length)
    (hB : s.stopped = specBreached (specSegment rs)) (m : String) :
    (thError s m).1
      = ⟨some m, specStreak (m :: specSegment rs),
         (m :: specSegment rs).length, specBreached (m :: specSegment rs)⟩ ∧
    (thError s m).2
      = (if specBreached (specSegment rs) then []
         else if specStreak (m :: specSegment rs) > MAX_SAME_ERROR then
           [ThMsg.stopNotice SAME_ERROR_MSG]
         else if (m :: specSegment rs).length > MAX_DIFF_ERROR then
           [ThMsg.stopNotice LOTS_ERRORS_MSG]
         else [ThMsg.forwarded m]) := by
  have hsame : (if some m = s.last_err then s.same_err_count + 1 else 1)
      = specStreak (m :: specSegment rs) := by
    cases hseg : specSegment rs with
    | nil =>
      by_cases hc : some m = s.last_err
      · rw [if_pos hc, hS, hseg]
        simp [specStreak]
      · rw [if_neg hc]
        simp [specStreak]
    | cons n seg2 =>
      have hlast : s.last_err = some n := by
        rw [hL]
        exact specLastErr_of_segment_cons rs n seg2 hseg
      rw [hlast]
      by_cases hm : m = n
      · rw [if_pos (by rw [hm]), hS, hseg]
        simp [specStreak, hm]
      · rw [if_neg (by simp [hm])]
        simp [specStreak, hm]
  have hbr : specBreached (m :: specSegment rs)
      = (specBreached (specSegment rs)
          || decide (specStreak (m :: specSegment rs) > MAX_SAME_ERROR)
          || decide ((m :: specSegment rs).length > MAX_DIFF_ERROR)) := rfl
  simp only [thError, hsame, hB, hA, List.length_cons]
  by_cases h1 : specBreached (specSegment rs) = true
  · rw [if_pos h1]
    have hv : specBreached (m :: specSegment rs) = true := by
      rw [hbr, h1]
      simp
    refine ⟨?_, by rw [if_pos h1]⟩
    simp [hv, h1]
  · have h1f : specBreached (specSegment rs) = false := by simpa using h1
    rw [if_neg h1]
    by_cases h2 : specStreak (m :: specSegment rs) > MAX_SAME_ERROR
    · rw [if_pos h2]
      have hv : specBreached (m :: specSegment rs) = true := by
        rw [hbr, h1f]
        simp [h2]
      refine ⟨?_, by rw [if_neg h1, if_pos h2]⟩
      simp [hv]
    · rw [if_neg h2]
      by_cases h3 : (specSegment rs).length + 1 > MAX_DIFF_ERROR
      · rw [if_pos h3]
        have hv : specBreached (m :: specSegment rs) = true := by
          rw [hbr, h1f]
          simp only [List.length_cons]
          simp [h2, h3]
        refine ⟨?_, by rw [if_neg h1, if_neg h2, if_pos h3]⟩
        simp [hv]
      · rw [if_neg h3]
        have hv : specBreached (m :: specSegment rs) = false := by
          rw [hbr, h1f]
          simp only [List.length_cons]
          simp [h2, h3]
        refine ⟨?_, by rw [if_neg h1, if_neg h2, if_neg h3]⟩
        simp [hv, h1f]

theorem thRun_state (es : List ThEvent) :
    (thRun es).1.last_err = specLastErr es.reverse ∧
    (thRun es).1.same_err_count = specStreak (specSegment es.reverse) ∧
    (thRun es).1.any_err_count = (specSegment es.reverse).length ∧
    (thRun es).1.stopped = specBreached (specSegment es.reverse) := by
  induction es using List.reverseRecOn with
  | nil =>
    simp [thRun, thRunFrom, thInit, specSegment, specStreak, specBreached,
      specLastErr]
  | append_singleton es e ih =>
    obtain ⟨hL, hS, hA, hB⟩ := ih
    cases e with
    | err m =>
      have hchar := thError_char (thRun es).1 es.reverse hL hS hA hB m
      have hrev : (es ++ [ThEvent.err m]).reverse
          = ThEvent.err m :: es.reverse := by simp
      rw [thRun_concat_err, hrev]
      refine ⟨?_, ?_, ?_, ?_⟩ <;>
        simp [hchar.1, specLastErr, specSegment]
    | ok =>
      have hrev : (es ++ [ThEvent.ok]).reverse = ThEvent.ok :: es.reverse := by
        simp
      rw [thRun_concat_ok, hrev]
      refine ⟨?_, ?_, ?_, ?_⟩ <;>
        simp [thOk, specLastErr, specSegment, specStreak, specBreached, hL]

/-- Claim C2: with `MAX_SAME_ERROR = 1` and `MAX_DIFF_ERROR = 4`, the error
throttler run on any stream of `error(msg)`/`ok()` events behaves exactly as
specified at every step: an error is forwarded unchanged while the
same-error streak is at most `MAX_SAME_ERROR` and the number of errors since
the last `ok()` is at most `MAX_DIFF_ERROR`; on the first breach exactly one
synthetic muted notice is emitted (the same-error message when the streak
cap broke, otherwise the lots-of-errors message) and the throttler is
muted; while muted, errors are swallowed silently; and `ok()` emits exactly
one recovered notice if and only if the throttler was muted, after which
normal forwarding resumes (the streak, error count and muted flag restart
from the empty segment). -/
theorem errorThrottler_spec (es : List ThEvent) (e : ThEvent) :
    (thRun (es ++ [e])).2 = (thRun es).2 ++ specStepOutputs es e ∧
    MAX_SAME_ERROR = 1 ∧ MAX_DIFF_ERROR = 4 := by
  refine ⟨?_, rfl, rfl⟩
  obtain ⟨hL, hS, hA, hB⟩ := thRun_state es
  cases e with
  | err m =>
    have hchar := thError_char (thRun es).1 es.reverse hL hS hA hB m
    rw [thRun_concat_err]
    show (thRun es).2 ++ (thError (thRun es).1 m).2
      = (thRun es).2 ++ specStepOutputs es (ThEvent.err m)
    rw [hchar.2]
    rfl
  | ok =>
    rw [thRun_concat_ok]
    show (thRun es).2 ++ (thOk (thRun es).1).2
      = (thRun es).2 ++ specStepOutputs es ThEvent.ok
    have : (thOk (thRun es).1).2
        = specStepOutputs es ThEvent.ok := by
      show (if (thRun es).1.stopped then [ThMsg.backWorking BACK_WORKING] else [])
        = _
      rw [hB]
      rfl
    rw [this]

end Passerd
